import Mathlib

/-!
Shallow embedding of the pgp-serverless key-lookup core: the Result type
(src/utils/Result.ts), the AsyncResultGenerator wrapper
(AsyncResultIterators), the search resolver and attribute decoder
(backend), the key-stream generator (pks/lookup/lookup.ts) and the
response formatters (formatters).  JavaScript runtime values are modelled
by `JSValue`; plain objects carry their own enumerable properties as an
insertion-ordered association list, and an `Error` instance additionally
carries its non-enumerable `message` slot.
-/

set_option autoImplicit false

/-- A JavaScript runtime value.  `vobj errMessage fields`: `errMessage = some m`
marks an `Error` instance whose (non-enumerable) `message` is `m`; `fields`
are the object's own enumerable properties in insertion order. -/
inductive JSValue where
  | vundef
  | vnull
  | vbool (b : Bool)
  | vnum (n : Int)
  | vstr (s : String)
  | vobj (errMessage : Option String) (fields : List (String × JSValue))

/-- Property read `m[key]`: the first binding of `key` (JS objects hold each
key at most once, so first = only). -/
def getF : List (String × JSValue) → String → Option JSValue
  | [], _ => none
  | (k, v) :: rest, key => if k = key then some v else getF rest key

/-- Property write `m[key] = v`: overwrite in place when the key exists
(keeping its position, as JS objects do), otherwise append. -/
def setF : List (String × JSValue) → String → JSValue → List (String × JSValue)
  | [], key, v => [(key, v)]
  | (k, w) :: rest, key, v =>
    if k = key then (k, v) :: rest else (k, w) :: setF rest key v

/-- Property removal `delete m[key]`. -/
def delF : List (String × JSValue) → String → List (String × JSValue)
  | [], _ => []
  | (k, w) :: rest, key =>
    if k = key then delF rest key else (k, w) :: delF rest key

/-- How many bindings of `key` the association list holds. -/
def countKey : List (String × JSValue) → String → Nat
  | [], _ => 0
  | (k, _) :: rest, key => (if k = key then 1 else 0) + countKey rest key

/-- JavaScript `String(v)` coercion, as far as the embedded code needs it
(an `Error` stringifies via `Error.prototype.toString`). -/
def jsString : JSValue → String
  | .vundef => "undefined"
  | .vnull => "null"
  | .vbool b => cond b "true" "false"
  | .vnum n => toString n
  | .vstr s => s
  | .vobj (some m) _ => if m = "" then "Error" else "Error: " ++ m
  | .vobj none _ => "[object Object]"

/-- The `Result<T>` union of src/utils/Result.ts: `{value}` or `{cause}`.
The payload type is a parameter because the formatters return
`Result<APIGatewayProxyStructuredResultV2>` and `Result<string>`. -/
inductive Result (α : Type) where
  | okv (value : α)
  | errv (cause : JSValue)

/-- A `Result` whose success payload is an arbitrary JS value. -/
abbrev JSResult := Result JSValue

/-- The body of `Result.err` (src/utils/Result.ts lines 66-85): null and
undefined become a bare `new Error()`; a string becomes `new Error(cause)`;
other non-objects become `new Error(String(cause))`; an `Error` instance is
passed through; a plain object is spread together with a fresh Error.  An
Error's own properties (`message`, `stack`) are non-enumerable, so the
spread `{...cause, ...new Error(message)}` copies only the cause's own
enumerable fields and the merged result is not an Error instance: both the
`'message' in cause` branch and the fallback branch reduce to a shallow
copy of `cause`. -/
def errCause : JSValue → JSValue
  | .vnull => .vobj (some "") []
  | .vundef => .vobj (some "") []
  | .vstr s => .vobj (some s) []
  | .vnum n => .vobj (some (toString n)) []
  | .vbool b => .vobj (some (cond b "true" "false")) []
  | .vobj (some m) fs => .vobj (some m) fs
  | .vobj none fs => .vobj none fs

namespace Result

/-- `Result.ok(value)`. -/
def ok (value : JSValue) : JSResult := .okv value

/-- `Result.err(cause)`. -/
def err (cause : JSValue) : JSResult := .errv (errCause cause)

/-- `Result.isOk`: `'value' in result`. -/
def isOk {α : Type} : Result α → Bool
  | .okv _ => true
  | .errv _ => false

/-- `Result.isErr`: `!('value' in result)`. -/
def isErr {α : Type} (r : Result α) : Bool := !(isOk r)

/-- `Result.isPresent`: `'value' in result && value !== undefined && value !== null`. -/
def isPresent : JSResult → Bool
  | .okv .vundef => false
  | .okv .vnull => false
  | .okv _ => true
  | .errv _ => false

/-- The `value` slot of a success; only read under `isPresent`/`isOk` guards
in the embedded code. -/
def valueOf : JSResult → JSValue
  | .okv v => v
  | .errv _ => JSValue.vundef

end Result

example : Result.err (JSValue.vstr "boom") = .errv (.vobj (some "boom") []) := rfl
example : Result.isPresent (Result.ok JSValue.vnull) = false := rfl
example : JSValue.vnum 404 ≠ JSValue.vstr "404" := fun h => JSValue.noConfusion h

/-- A hexadecimal digit, upper or lower case. -/
def isHexChar (c : Char) : Bool :=
  c.isDigit || (97 ≤ c.toNat && c.toNat ≤ 102) || (65 ≤ c.toNat && c.toNat ≤ 70)

/-- JavaScript `s.toUpperCase()` on the ASCII range the store keys use. -/
def strUpper (s : String) : String := String.mk (s.data.map Char.toUpper)

/-- JavaScript `s.slice(-n)`: the trailing `n` characters (the whole string
when it is shorter). -/
def strTakeRight (n : Nat) (s : String) : String :=
  String.mk (s.data.drop (s.data.length - n))

/-- JavaScript `s.slice(0, -n)`: everything before the trailing `n`
characters (empty when the string is shorter). -/
def strDropRight (n : Nat) (s : String) : String :=
  String.mk (s.data.take (s.data.length - n))

/-- Modelled from the spec: `HEX_REGEX` of src/utils/constants, a file the
repository does not ship.  The spec describes it as a hex-identifier
pattern "optionally prefixed by a 2-character marker, e.g. `0x`", whose
first capture group (`match[1]`) is the hex payload with the marker
stripped ("replace the search string with the matched hex payload (marker
stripped)").  `hexMatch s` is `some payload` when `s` matches, mirroring
`s.match(HEX_REGEX)` followed by `match[1]`. -/
def hexMatch (s : String) : Option String :=
  let payload := match s.data with
    | '0' :: 'x' :: rest => rest
    | l => l
  if payload.length != 0 && payload.all isHexChar then some (String.mk payload)
  else none

/-- The DynamoDB `AttributeValue` tagged union consumed by
`unfoldAttributes` (backend, lines 164-193): exactly one tag is set.
Payloads of tags the pipeline treats opaquely stay arbitrary `JSValue`s. -/
inductive AttributeValue where
  | B (v : JSValue)
  | BOOL (b : Bool)
  | BS (v : JSValue)
  | L (v : JSValue)
  | M (v : JSValue)
  | N (s : String)
  | NS (v : JSValue)
  | NULL
  | S (s : String)
  | SS (v : JSValue)
  | unknownTag (v : JSValue)

/-- One raw record of the keyed store: field name to tagged value. -/
abbrev RawItem := List (String × AttributeValue)

/-- The per-attribute unwrapping done by the if/else chain of
`unfoldAttributes`: each tag maps to its native representation (a DynamoDB
number `N` stays the string the wire carries; `NULL` becomes `null`). -/
def unfoldAttribute : AttributeValue → JSValue
  | .B v => v
  | .BOOL b => .vbool b
  | .BS v => v
  | .L v => v
  | .M v => v
  | .N s => .vstr s
  | .NS v => v
  | .NULL => .vnull
  | .S s => .vstr s
  | .SS v => v
  | .unknownTag v => v

/-- `unfoldAttributes` (backend): builds `result` by assigning
`result[k] = <native>` for each key of the item, in order. -/
def unfoldAttributes (item : RawItem) : List (String × JSValue) :=
  item.foldl (fun acc kv => setF acc kv.1 (unfoldAttribute kv.2)) []

/-- The exception `assert.ok` raises on a contract violation in
`extractKeyMetadata`; its exact message is irrelevant to the claims. -/
def assertionError : JSValue := .vobj (some "assertion failed") []

/-- Whether the decoded mapping holds `key` as a string, i.e.
`typeof result[key] === 'string'`. -/
def isStringField (m : List (String × JSValue)) (key : String) : Bool :=
  match getF m key with
  | some (.vstr _) => true
  | _ => false

/-- The KeyMetadata derivation of `extractKeyMetadata` (backend, lines
150-162) applied to the already-decoded mapping: assert the three required
string fields (`assert.ok` raising is modelled as `Except.error`, a raised
exception rather than a returned `Result`), set `id` and `fingerprint`,
then delete the two source-only fields. -/
def deriveKeyMetadata (m : List (String × JSValue)) :
    Except JSValue (List (String × JSValue)) :=
  match getF m "pgpKeyId", getF m "pgpFingerprintUpper", getF m "primaryUserId" with
  | some (.vstr kid), some (.vstr fpu), some (.vstr _) =>
    let m1 := setF m "id" (.vstr kid)
    let m2 := setF m1 "fingerprint" (.vstr (fpu ++ kid))
    .ok (delF (delF m2 "pgpKeyId") "pgpFingerprintUpper")
  | _, _, _ => .error assertionError

/-- `extractKeyMetadata`: decode the raw item, then derive. -/
def extractKeyMetadata (item : RawItem) : Except JSValue (List (String × JSValue)) :=
  deriveKeyMetadata (unfoldAttributes item)

/-- Whether `extractKeyMetadata` succeeds on the item (no assertion raise). -/
def decodes (item : RawItem) : Bool :=
  match extractKeyMetadata item with
  | .ok _ => true
  | .error _ => false

/-- The successful decode of an item; only meaningful when `decodes`. -/
def decodeOk (item : RawItem) : List (String × JSValue) :=
  match extractKeyMetadata item with
  | .ok m => m
  | .error _ => []

/-- The query shape a resolver call issues against the keyed store:
a `GetItemCommand` point lookup, a `QueryCommand` partition query, or a
`ScanCommand` filtered scan. -/
inductive Dispatch where
  | fingerprint (pgpKeyId : String) (pgpFingerprintUpper : String)
  | idQuery (term : String)
  | keywordScan (filterExpr : String) (term : String)

/-- The `FilterExpression` string `searchKeysByKeyword` builds. -/
def filterExpression (exact : Bool) : String :=
  if exact then "primaryUserId = :term"
  else "contains(primaryUserId, :term) OR contains(pgpKeyId, :term) OR contains(pgpFingerprintUpper, :term)"

/-- The `GetItemCommand` key `findKeyByFingerprint` builds from the search
string: `pgpKeyId = search.slice(-16).toUpperCase()`,
`pgpFingerprintUpper = search.slice(0, -16).toUpperCase()`. -/
def pointLookupKey (search : String) : String × String :=
  (strUpper (strTakeRight 16 search), strUpper (strDropRight 16 search))

/-- The classification done by `searchKeysByBestGuess` (backend, lines
23-44): which single store request is issued, paired with the value of
`lookup.search` after the call (line 29 mutates it to the marker-stripped
hex payload whenever the hex pattern matches, before any dispatch). -/
def searchKeysByBestGuessDispatch (search : String) (exact : Bool) : Dispatch × String :=
  match hexMatch search with
  | none => (.keywordScan (filterExpression exact) search, search)
  | some norm =>
    if norm.length = 32 ∨ norm.length = 40 ∨ norm.length = 64 then
      (.fingerprint (pointLookupKey norm).1 (pointLookupKey norm).2, norm)
    else if norm.length = 16 then
      (.idQuery (strUpper norm), norm)
    else
      (.keywordScan (filterExpression exact) norm, norm)

example : hexMatch "0xABC" = some "ABC" := rfl
example : hexMatch "hello" = none := rfl
example : (searchKeysByBestGuessDispatch "0xABC" false).2 = "ABC" := rfl

/-- One outcome of `DYNAMO.send` inside the pagination loop shared by
`searchKeysById` and `searchKeysByKeyword`: a page (`Items` may be absent,
`LastEvaluatedKey` is the continuation token) or a rejected send. -/
inductive PageResult where
  | page (items : Option (List RawItem)) (lastEvaluatedKey : Option String)
  | fail (cause : JSValue)

/-- Yielding one page's items through `extractKeyMetadata`: the records
decoded before a decode raise, and the raised exception if any (the raise
is converted to an `Err` termination by the surrounding
`AsyncResultGenerator.from` wrapper). -/
def yieldPage : List RawItem → List (List (String × JSValue)) × Option JSValue
  | [] => ([], none)
  | i :: rest =>
    match extractKeyMetadata i with
    | .error e => ([], some e)
    | .ok m =>
      let p := yieldPage rest
      (m :: p.1, p.2)

/-- The observable drain of one wrapped pagination generator: the
`ExclusiveStartKey` attached to each issued send (the rest of the request
object is never reassigned, so every send reissues the identical query),
the records yielded, and the terminating `Result`. -/
structure PagedRun where
  sends : List (Option String)
  yields : List (List (String × JSValue))
  outcome : JSResult

/-- The pagination loop of `searchKeysById` / `searchKeysByKeyword`
(backend, lines 62-76 and 94-108) composed with the
`AsyncResultGenerator.from` wrapper, drained to completion: send, yield the
page's decoded items, stop when no continuation token is returned, else
attach the token and send again; a rejected send or a decode raise
terminates with `Err` via the wrapper.  The store always answers an issued
send, so the `[]` case (a send the page list leaves unanswered) is
unreachable under the store-shape hypotheses of the theorems below. -/
def runPaged : Option String → List PageResult → PagedRun
  | sk, [] => ⟨[sk], [], .okv .vundef⟩
  | sk, .fail e :: _ => ⟨[sk], [], .errv (errCause e)⟩
  | sk, .page its tok :: rest =>
    let yp := yieldPage (its.getD [])
    match yp.2 with
    | some e => ⟨[sk], yp.1, .errv (errCause e)⟩
    | none =>
      match tok with
      | none => ⟨[sk], yp.1, .okv .vundef⟩
      | some t =>
        let r := runPaged (some t) rest
        ⟨sk :: r.sends, yp.1 ++ r.yields, r.outcome⟩

/-- A store page carrying a continuation token (every page but the last in
the claim's success scenario). -/
def goodPage (p : Option (List RawItem) × String) : PageResult :=
  .page p.1 (some p.2)

/-- The items of a page whose `Items` member may be absent. -/
def itemsOf (o : Option (List RawItem)) : List RawItem := o.getD []

/-- One step of the underlying async generator handed to
`AsyncResultGenerator.from`: yield an item, return a value, or raise. -/
inductive GenStep (T : Type) where
  | yld (item : T)
  | ret (value : JSValue)
  | thr (cause : JSValue)

/-- What one pull of the wrapped generator delivers:
`IteratorResult<T, Result<TReturn>>` — an item, or done with a `Result`. -/
inductive PullResult (T : Type) where
  | item (t : T)
  | done (r : JSResult)

/-- The underlying generator's `next()`, on its remaining trace: a
completed generator (empty trace) answers `{done: true, value: undefined}`;
a `return` or a `throw` completes it (JS generators never resume after
completing). -/
def genNext {T : Type} : List (GenStep T) → GenStep T × List (GenStep T)
  | [] => (.ret .vundef, [])
  | .yld t :: rest => (.yld t, rest)
  | .ret v :: _ => (.ret v, [])
  | .thr e :: _ => (.thr e, [])

/-- `next` of the object built by `AsyncResultGenerator.from` (lines
43-50): await the underlying `next` inside try/catch; a normal
`IteratorResult` goes through `wrapIteratorResult` (done values wrapped in
`Result.ok`, lines 30-35), and a rejection is caught and becomes
`{done: true, value: Result.err(cause)}`. -/
def wrapNext {T : Type} (g : List (GenStep T)) : PullResult T × List (GenStep T) :=
  match genNext g with
  | (.yld t, g2) => (.item t, g2)
  | (.ret v, g2) => (.done (.okv v), g2)
  | (.thr e, g2) => (.done (.errv (errCause e)), g2)

/-- The generator's remaining trace after `n` pulls of the wrapper. -/
def nthState {T : Type} (g : List (GenStep T)) : Nat → List (GenStep T)
  | 0 => g
  | n + 1 => (wrapNext (nthState g n)).2

/-- What the `(n+1)`-th pull of the wrapper delivers. -/
def nthPull {T : Type} (g : List (GenStep T)) (n : Nat) : PullResult T :=
  (wrapNext (nthState g n)).1

/-- Whether a pull terminated the sequence. -/
def isDonePull {T : Type} : PullResult T → Bool
  | .item _ => false
  | .done _ => true

/-- One outcome of the `GetItemCommand` send inside
`findKeyByFingerprint`: a rejected send, a miss (`Item` absent), or a hit. -/
inductive PointOutcome where
  | fail (cause : JSValue)
  | miss
  | found (item : RawItem)

/-- `findKeyByFingerprint` (backend, lines 115-134): `AsyncResult.run`
around the point lookup — a rejection becomes `Err`, a miss resolves to
`Ok(undefined)`, a hit resolves to the extracted metadata (whose assertion
raise `run` also converts to `Err`). -/
def findKeyByFingerprint (o : PointOutcome) : JSResult :=
  match o with
  | .fail e => .errv (errCause e)
  | .miss => .okv .vundef
  | .found item =>
    match extractKeyMetadata item with
    | .ok m => .okv (.vobj none m)
    | .error e => .errv (errCause e)

/-- The fingerprint branch of `searchKeysByBestGuess` (lines 30-39), as the
drained sequence (yields, termination): an `Err` lookup result is returned
as the termination; a present value is yielded; then `Result.ok()`. -/
def bestGuessFingerprintRun (o : PointOutcome) : List JSValue × JSResult :=
  let r := findKeyByFingerprint o
  if Result.isErr r then ([], r)
  else if Result.isPresent r then ([Result.valueOf r], .okv .vundef)
  else ([], .okv .vundef)

/-- `generateKeyStreams` (src/pks/lookup/lookup.ts, lines 393-403) drained:
for each yielded metadata record, await `getKeyDataStream` (abstracted as
`fetch`, an `AsyncResult` that never rejects) and yield its value only when
`Result.isPresent`; the input sequence's own termination is returned
unchanged. -/
def generateKeyStreams (fetch : List (String × JSValue) → JSResult) :
    List (List (String × JSValue)) → JSResult → List JSValue × JSResult
  | [], outc => ([], outc)
  | m :: rest, outc =>
    let r := fetch m
    let tail := generateKeyStreams fetch rest outc
    if Result.isPresent r then (Result.valueOf r :: tail.1, tail.2) else tail

/-- The value `generateKeyStreams` forwards for one record: the stream when
the fetch succeeded with one present, nothing otherwise. -/
def presentValue (r : JSResult) : Option JSValue :=
  if Result.isPresent r then some (Result.valueOf r) else none

/-- Reading one yielded byte stream to completion in `formatKeys`: either
every chunk arrives, or the iteration raises after some chunks (which the
enclosing try/catch turns into an immediate `Err` return). -/
inductive StreamRead where
  | fullRead (chunks : List String)
  | failRead (readChunks : List String) (cause : JSValue)

/-- The aggregated lambda response: status code, `Content-Type` header and
optional body. -/
structure LambdaResponse where
  statusCode : Nat
  contentType : String
  body : Option String

/-- The chunks a stream contributes to the accumulated body (a failing
stream contributes nothing: the function returns before concatenating). -/
def chunksOf : StreamRead → List String
  | .fullRead cs => cs
  | .failRead _ _ => []

/-- The loop of `formatKeys` (formatters, lines 15-47) with the chunk
accumulator made explicit: read each stream to completion pushing chunks; a
read failure returns `Result.err(cause)` at once (remaining streams
unread, no body); at the sequence's end an `Ok` termination concatenates
all chunks into the body with content type `application/pgp-keys`, and an
`Err` termination is returned as-is. -/
def formatKeysAux : List String → List StreamRead → JSResult →
    Result LambdaResponse
  | acc, [], outc =>
    match outc with
    | .okv _ => .okv ⟨200, "application/pgp-keys", some (String.join acc)⟩
    | .errv c => .errv c
  | acc, .fullRead cs :: rest, outc => formatKeysAux (acc ++ cs) rest outc
  | _, .failRead _ e :: _, _ => .errv (errCause e)

/-- `formatKeys`, drained over the whole stream sequence. -/
def formatKeys (streams : List StreamRead) (outc : JSResult) :
    Result LambdaResponse :=
  formatKeysAux [] streams outc

/-- The mode test of `formatIndices` (formatters, line 63):
`lookup.options == undefined || lookup.options.includes('mr') ||
!lookup.options.includes('json')`. -/
def isMachineMode (options : Option (List String)) : Bool :=
  options.isNone || (options.getD []).contains "mr" ||
    !((options.getD []).contains "json")

/-- A character `encodeURIComponent` leaves unescaped:
`A-Z a-z 0-9 - _ . ! ~ * ' ( )`. -/
def uriUnreserved (c : Char) : Bool :=
  c.isAlpha || c.isDigit ||
    c ∈ ['-', '_', '.', '!', '~', '*', '\'', '(', ')']

/-- An uppercase hexadecimal digit character for a value below 16. -/
def hexDigitChar (n : Nat) : Char :=
  if n < 10 then Char.ofNat (48 + n) else Char.ofNat (55 + n)

/-- A percent-encoded byte, `%XX` with uppercase hex. -/
def percentByte (b : Nat) : String :=
  String.mk ['%', hexDigitChar (b / 16), hexDigitChar (b % 16)]

/-- The UTF-8 bytes of one code point. -/
def utf8Bytes (c : Char) : List Nat :=
  let n := c.toNat
  if n < 128 then [n]
  else if n < 2048 then [192 + n / 64, 128 + n % 64]
  else if n < 65536 then [224 + n / 4096, 128 + n / 64 % 64, 128 + n % 64]
  else [240 + n / 262144, 128 + n / 4096 % 64, 128 + n / 64 % 64, 128 + n % 64]

/-- JavaScript `encodeURIComponent`: unreserved characters pass through,
every other code point is replaced by the percent-encoding of its UTF-8
bytes. -/
def encodeURIComponent (s : String) : String :=
  String.join (s.data.map fun c =>
    if uriUnreserved c then String.mk [c]
    else String.join ((utf8Bytes c).map percentByte))

/-- JavaScript property-read of a record field, `undefined` when absent
(used for `keyMeta.fingerprint` / `keyMeta.primaryUserId`). -/
def fieldOf (m : List (String × JSValue)) (key : String) : JSValue :=
  (getF m key).getD JSValue.vundef

/-- One record's two lines in the machine-readable index
(`formatMachineIndices`, line 83). -/
def machineLine (m : List (String × JSValue)) : String :=
  "pub:" ++ jsString (fieldOf m "fingerprint") ++ "\nuid:" ++
    encodeURIComponent (jsString (fieldOf m "primaryUserId")) ++ "\n"

/-- The JSON string escaping `JSON.stringify` applies inside quotes. -/
def jsonQuoteChar (c : Char) : String :=
  if c = '"' then "\\\""
  else if c = '\\' then "\\\\"
  else if c = '\n' then "\\n"
  else if c = '\r' then "\\r"
  else if c = '\t' then "\\t"
  else if c.toNat < 32 then
    "\\u00" ++ String.mk [hexDigitChar (c.toNat / 16), hexDigitChar (c.toNat % 16)]
  else String.mk [c]

/-- A JSON string literal. -/
def jsonQuote (s : String) : String :=
  "\"" ++ String.join (s.data.map jsonQuoteChar) ++ "\""

mutual

/-- `JSON.stringify` of one value: `none` stands for `undefined`, which
`JSON.stringify` omits when it is a property value; an `Error`'s
non-enumerable slots are not serialized, only its enumerable fields. -/
def jsonStringify : JSValue → Option String
  | .vundef => none
  | .vnull => some "null"
  | .vbool b => some (cond b "true" "false")
  | .vnum n => some (toString n)
  | .vstr s => some (jsonQuote s)
  | .vobj _ fs =>
    some ("\x7b" ++ String.intercalate "," (jsonMembers fs) ++ "\x7d")

/-- The serialized `"key":value` members of an object, dropping
`undefined`-valued properties, in insertion order. -/
def jsonMembers : List (String × JSValue) → List String
  | [] => []
  | (k, v) :: rest =>
    match jsonStringify v with
    | none => jsonMembers rest
    | some sv => (jsonQuote k ++ ":" ++ sv) :: jsonMembers rest

end

/-- `JSON.stringify(indices)` where `indices` is the plain mapping built by
`formatJsonIndices`. -/
def jsonStringifyTop (fs : List (String × JSValue)) : String :=
  "\x7b" ++ String.intercalate "," (jsonMembers fs) ++ "\x7d"

/-- The property key `indices[keyMeta.fingerprint]` uses (JS coerces a
non-string key with `String(...)`). -/
def fingerprintKeyOf (m : List (String × JSValue)) : String :=
  jsString (fieldOf m "fingerprint")

/-- The `indices` accumulation loop of `formatJsonIndices` (formatters,
lines 96-100): `indices[keyMeta.fingerprint] = keyMeta` for each yielded
record in order. -/
def buildIndices : List (List (String × JSValue)) → List (String × JSValue) →
    List (String × JSValue)
  | [], acc => acc
  | m :: rest, acc => buildIndices rest (setF acc (fingerprintKeyOf m) (.vobj none m))

/-- The mapping `formatJsonIndices` holds when the sequence is drained. -/
def buildIndicesAll (metas : List (List (String × JSValue))) :
    List (String × JSValue) :=
  buildIndices metas []

/-- `formatJsonIndices` (lines 93-105): drain the sequence into `indices`;
an `Err` termination is returned, an `Ok` termination serializes. -/
def formatJsonIndices (metas : List (List (String × JSValue))) (outc : JSResult) :
    Result String :=
  match outc with
  | .errv c => .errv c
  | .okv _ => .okv (jsonStringifyTop (buildIndicesAll metas))

/-- `formatMachineIndices` (lines 78-91): drain the sequence appending each
record's two lines; an `Err` termination is returned, an `Ok` termination
concatenates. -/
def formatMachineIndices (metas : List (List (String × JSValue))) (outc : JSResult) :
    Result String :=
  match outc with
  | .errv c => .errv c
  | .okv _ => .okv (String.join (metas.map machineLine))

/-- `formatIndices` (formatters, lines 59-76): pick the mode and content
type, run the matching formatter, and wrap a success into the structured
response. -/
def formatIndices (options : Option (List String))
    (metas : List (List (String × JSValue))) (outc : JSResult) :
    Result LambdaResponse :=
  let machine := isMachineMode options
  let ct := if machine then "text/plain" else "application/json"
  match (if machine then formatMachineIndices metas outc
         else formatJsonIndices metas outc) with
  | .errv c => .errv c
  | .okv body => .okv ⟨200, ct, some body⟩

/-- The latest yielded record whose fingerprint key equals `fp` (the record
last-write-wins keeps). -/
def lastMatch (fp : String) : List (List (String × JSValue)) →
    Option (List (String × JSValue))
  | [] => none
  | m :: rest =>
    match lastMatch fp rest with
    | some r => some r
    | none => if fingerprintKeyOf m = fp then some m else none

/-- Whether `searchKeysByBestGuess` reaches the keyword path for this
search string: no hex match, or a normalized length other than
32/40/64/16. -/
def keywordDispatched (s : String) : Bool :=
  match hexMatch s with
  | none => true
  | some n =>
    !(n.length = 32 || n.length = 40 || n.length = 64 || n.length = 16)

/-- The `:term` value the keyword scan ends up using: the current value of
`lookup.search` at dispatch — the marker-stripped payload when the hex
pattern matched, the raw text otherwise. -/
def scanTerm (s : String) : String :=
  match hexMatch s with
  | none => s
  | some n => n

/-- Whether a stream read runs to completion without raising. -/
def isFullRead : StreamRead → Bool
  | .fullRead _ => true
  | .failRead _ _ => false

/-- Whether the decoded mapping satisfies the three `assert.ok` contracts
of `extractKeyMetadata`. -/
def requiredFieldsPresent (m : List (String × JSValue)) : Bool :=
  isStringField m "pgpKeyId" && isStringField m "pgpFingerprintUpper" &&
    isStringField m "primaryUserId"

/-! ### Helper lemmas about the record operations -/

theorem getF_setF_self (m : List (String × JSValue)) (k : String) (v : JSValue) :
    getF (setF m k v) k = some v := by
  induction m with
  | nil => simp [setF, getF]
  | cons kv rest ih =>
    obtain ⟨k1, w⟩ := kv
    by_cases h : k1 = k
    · simp [setF, getF, h]
    · simpa [setF, getF, h] using ih

theorem getF_setF_ne (m : List (String × JSValue)) (k k2 : String) (v : JSValue)
    (h : k2 ≠ k) : getF (setF m k v) k2 = getF m k2 := by
  induction m with
  | nil => simp [setF, getF, Ne.symm h]
  | cons kv rest ih =>
    obtain ⟨k1, w⟩ := kv
    by_cases hk : k1 = k
    · subst hk
      simp [setF, getF, Ne.symm h]
    · by_cases hk2 : k1 = k2
      · simp [setF, getF, hk, hk2, h]
      · simpa [setF, getF, hk, hk2] using ih

theorem getF_delF_self (m : List (String × JSValue)) (k : String) :
    getF (delF m k) k = none := by
  induction m with
  | nil => simp [delF, getF]
  | cons kv rest ih =>
    obtain ⟨k1, w⟩ := kv
    by_cases h : k1 = k
    · simpa [delF, h] using ih
    · simpa [delF, getF, h] using ih

theorem getF_delF_ne (m : List (String × JSValue)) (k k2 : String)
    (h : k2 ≠ k) : getF (delF m k) k2 = getF m k2 := by
  induction m with
  | nil => simp [delF, getF]
  | cons kv rest ih =>
    obtain ⟨k1, w⟩ := kv
    by_cases hk : k1 = k
    · subst hk
      simpa [delF, getF, Ne.symm h] using ih
    · by_cases hk2 : k1 = k2
      · simp [delF, getF, hk, hk2, h]
      · simpa [delF, getF, hk, hk2] using ih

theorem countKey_setF_self (m : List (String × JSValue)) (k : String) (v : JSValue) :
    countKey (setF m k v) k = max (countKey m k) 1 := by
  induction m with
  | nil => simp [setF, countKey]
  | cons kv rest ih =>
    obtain ⟨k1, w⟩ := kv
    by_cases h : k1 = k
    · simp [setF, countKey, h]
      try omega
    · simp [setF, countKey, h] at ih ⊢
      try omega

theorem countKey_setF_ne (m : List (String × JSValue)) (k k2 : String) (v : JSValue)
    (h : k2 ≠ k) : countKey (setF m k v) k2 = countKey m k2 := by
  induction m with
  | nil => simp [setF, countKey, Ne.symm h]
  | cons kv rest ih =>
    obtain ⟨k1, w⟩ := kv
    by_cases hk : k1 = k
    · subst hk
      simp [setF, countKey]
    · simp [setF, countKey, hk] at ih ⊢
      omega

theorem getF_isSome_le_countKey (m : List (String × JSValue)) (k : String)
    (h : (getF m k).isSome = true) : 1 ≤ countKey m k := by
  induction m with
  | nil => simp [getF] at h
  | cons kv rest ih =>
    obtain ⟨k1, w⟩ := kv
    by_cases hk : k1 = k
    · simp [countKey, hk]
    · simp [getF, hk] at h
      have := ih h
      simp [countKey, hk]
      omega

/-! ### C10, C3: the Result primitives -/

/-- C10: for every value `v`, `isPresent(ok(v))` holds iff `isOk` holds and
`v` is neither null nor undefined; `isPresent(Ok(null))` is false,
`isPresent(Ok(5))` is true, `isErr(Ok(undefined))` is false; and for every
`Result` exactly one of `isOk` and `isErr` holds, `isErr` being the
negation of the `value`-field presence that `isOk` tests. -/
theorem result_predicates_spec :
    (∀ v : JSValue, Result.isPresent (Result.ok v) = true ↔
        (Result.isOk (Result.ok v) = true ∧ v ≠ JSValue.vnull ∧ v ≠ JSValue.vundef))
  ∧ Result.isPresent (Result.ok JSValue.vnull) = false
  ∧ Result.isPresent (Result.ok (JSValue.vnum 5)) = true
  ∧ Result.isErr (Result.ok JSValue.vundef) = false
  ∧ (∀ r : JSResult, (Result.isOk r = true ∧ Result.isErr r = false) ∨
      (Result.isOk r = false ∧ Result.isErr r = true))
  ∧ (∀ r : JSResult, Result.isErr r = !(Result.isOk r)) := by
  refine ⟨fun v => ?_, rfl, rfl, rfl, fun r => ?_, fun r => rfl⟩
  · cases v <;> simp [Result.isPresent, Result.isOk, Result.ok]
  · cases r <;> simp [Result.isOk, Result.isErr]

/-- C3: evidence that the merged-object conversion of `Result.err` does
not behave as documented.  `err({message: 404})` leaves the cause a plain
shallow copy of the input: spreading `new Error("404")` over it copies
nothing because an Error's `message` is a non-enumerable own property, so
the cause's `message` stays the number `404`, not the string `"404"`, and
the cause is not an Error instance.  The string, null and undefined
conversions do behave as claimed. -/
theorem result_err_merged_message_not_stringified :
    Result.err (JSValue.vobj none [("message", JSValue.vnum 404)])
      = Result.errv (JSValue.vobj none [("message", JSValue.vnum 404)])
  ∧ getF [("message", JSValue.vnum 404)] "message" = some (JSValue.vnum 404)
  ∧ JSValue.vnum 404 ≠ JSValue.vstr "404"
  ∧ Result.err (JSValue.vstr "boom") = Result.errv (JSValue.vobj (some "boom") [])
  ∧ Result.err JSValue.vnull = Result.errv (JSValue.vobj (some "") [])
  ∧ Result.err JSValue.vundef = Result.errv (JSValue.vobj (some "") []) := by
  refine ⟨rfl, by simp [getF], fun h => JSValue.noConfusion h, rfl, rfl, rfl⟩

/-! ### C6: generateKeyStreams skips failed stream fetches -/

/-- C6: draining `generateKeyStreams` forwards exactly the present fetched
streams, in order, and returns the metadata sequence's own termination
unchanged: a fetch that returns `Err`, or a success carrying no stream
(`undefined`/`null` body), is silently skipped — it neither terminates the
sequence with `Err` nor surfaces in the output. -/
theorem generateKeyStreams_skips_failures
    (fetch : List (String × JSValue) → JSResult)
    (metas : List (List (String × JSValue))) (outc : JSResult) :
    generateKeyStreams fetch metas outc
      = (metas.filterMap (fun m => presentValue (fetch m)), outc)
  ∧ (∀ m, Result.isErr (fetch m) = true → presentValue (fetch m) = none)
  ∧ presentValue (Result.okv JSValue.vundef) = none := by
  refine ⟨?_, fun m h => ?_, rfl⟩
  · induction metas with
    | nil => simp [generateKeyStreams]
    | cons m rest ih =>
      by_cases hp : Result.isPresent (fetch m) = true
      · simp [generateKeyStreams, presentValue, hp, ih]
      · simp only [Bool.not_eq_true] at hp
        simp [generateKeyStreams, presentValue, hp, ih]
  · cases hr : fetch m with
    | okv v => simp [Result.isErr, Result.isOk, hr] at h
    | errv c => simp [presentValue, Result.isPresent]

/-! ### C2: the AsyncResultGenerator.from pull protocol -/

theorem wrapNext_done_state {T : Type} (g : List (GenStep T))
    (h : isDonePull (wrapNext g).1 = true) : (wrapNext g).2 = [] := by
  match g with
  | [] => rfl
  | .yld t :: rest => simp [wrapNext, genNext, isDonePull] at h
  | .ret v :: rest => rfl
  | .thr e :: rest => rfl

theorem wrapNext_nil {T : Type} :
    wrapNext ([] : List (GenStep T)) = (.done (.okv .vundef), []) := rfl

theorem nthState_add {T : Type} (g : List (GenStep T)) (a b : Nat) :
    nthState g (a + b) = nthState (nthState g a) b := by
  induction b with
  | zero => rfl
  | succ b ih => simp [nthState, ← Nat.add_assoc, ih]

theorem nthState_nil {T : Type} (n : Nat) :
    nthState ([] : List (GenStep T)) n = [] := by
  induction n with
  | zero => rfl
  | succ n ih => simp [nthState, ih, wrapNext_nil]

/-- C2: the wrapper built by `AsyncResultGenerator.from` never lets a pull
propagate an exception — a raise during production is answered as a
done-termination carrying `Err` — and the sequence is terminated at most
once: as soon as some pull is done, every later pull is done too, and
delivers the protocol's inert `{done: true, value: Ok(undefined)}` rather
than a second termination value or a further item. -/
theorem asyncResultGenerator_from_protocol {T : Type} (g : List (GenStep T))
    (n m : Nat) (hdone : isDonePull (nthPull g n) = true) (hle : n ≤ m) :
    (∀ e rest, wrapNext (GenStep.thr e :: rest) =
        (PullResult.done (Result.errv (errCause e)), ([] : List (GenStep T))))
  ∧ isDonePull (nthPull g m) = true
  ∧ (n < m → nthPull g m = PullResult.done (Result.okv JSValue.vundef)) := by
  have hstate : (wrapNext (nthState g n)).2 = [] := wrapNext_done_state _ hdone
  have hafter : ∀ k, 0 < k → nthPull g (n + k) = PullResult.done (Result.okv JSValue.vundef) := by
    intro k hk
    match k, hk with
    | k + 1, _ =>
      have h1 : nthState g (n + (k + 1)) = [] := by
        have : n + (k + 1) = (n + 1) + k := by omega
        rw [this, nthState_add]
        have hn1 : nthState g (n + 1) = [] := by
          simpa [nthState] using hstate
        rw [hn1, nthState_nil]
      simp [nthPull, h1, wrapNext_nil]
  refine ⟨fun e rest => rfl, ?_, fun hlt => ?_⟩
  · rcases Nat.eq_or_lt_of_le hle with heq | hlt
    · exact heq ▸ hdone
    · have := hafter (m - n) (by omega)
      rw [show n + (m - n) = m by omega] at this
      simp [this, isDonePull]
  · have := hafter (m - n) (by omega)
    rwa [show n + (m - n) = m by omega] at this

/-- Closed witness for the protocol theorem: the wrapped trace
`[yield 1, return undefined]` is done at the second pull, and the third
pull is the inert done result. -/
theorem asyncResultGenerator_from_protocol_witness :
    isDonePull (nthPull [GenStep.yld (1 : Nat), GenStep.ret JSValue.vundef] 2) = true :=
  (asyncResultGenerator_from_protocol
    [GenStep.yld (1 : Nat), GenStep.ret JSValue.vundef] 1 2 rfl (by omega)).2.1

/-! ### C8: the KeyMetadata derivation contract -/

/-- C8: deriving a KeyMetadata from a decoded mapping requires `pgpKeyId`,
`pgpFingerprintUpper` and `primaryUserId` as strings — absence or wrong
type of any of them raises immediately (`Except.error`, the modelled
`assert.ok` throw, not a returned `Result` failure) — and on success the
derived record has `id := pgpKeyId`,
`fingerprint := pgpFingerprintUpper ++ pgpKeyId`, with the two source-only
fields removed. -/
theorem extractKeyMetadata_contract (m : List (String × JSValue))
    (kid fpu uid : String)
    (hk : getF m "pgpKeyId" = some (JSValue.vstr kid))
    (hf : getF m "pgpFingerprintUpper" = some (JSValue.vstr fpu))
    (hu : getF m "primaryUserId" = some (JSValue.vstr uid)) :
    (∃ out, deriveKeyMetadata m = .ok out
      ∧ getF out "id" = some (JSValue.vstr kid)
      ∧ getF out "fingerprint" = some (JSValue.vstr (fpu ++ kid))
      ∧ getF out "pgpKeyId" = none
      ∧ getF out "pgpFingerprintUpper" = none)
  ∧ (∀ m2, requiredFieldsPresent m2 = false →
      deriveKeyMetadata m2 = .error assertionError) := by
  constructor
  · refine ⟨delF (delF (setF (setF m "id" (JSValue.vstr kid)) "fingerprint"
        (JSValue.vstr (fpu ++ kid))) "pgpKeyId") "pgpFingerprintUpper",
      by simp [deriveKeyMetadata, hk, hf, hu], ?_, ?_, ?_, ?_⟩
    · rw [getF_delF_ne _ _ _ (by decide), getF_delF_ne _ _ _ (by decide),
        getF_setF_ne _ _ _ _ (by decide), getF_setF_self]
    · rw [getF_delF_ne _ _ _ (by decide), getF_delF_ne _ _ _ (by decide),
        getF_setF_self]
    · rw [getF_delF_ne _ _ _ (by decide), getF_delF_self]
    · rw [getF_delF_self]
  · intro m2 h
    unfold deriveKeyMetadata
    split
    · rename_i kid2 fpu2 uid2 h1 h2 h3
      simp [requiredFieldsPresent, isStringField, h1, h2, h3] at h
    · rfl

/-- Closed witness: the contract theorem applied to a concrete well-formed
mapping, projected to the raise on the empty (field-less) mapping. -/
theorem extractKeyMetadata_contract_witness :
    deriveKeyMetadata [] = .error assertionError :=
  (extractKeyMetadata_contract
    [("pgpKeyId", JSValue.vstr "K"), ("pgpFingerprintUpper", JSValue.vstr "F"),
     ("primaryUserId", JSValue.vstr "U")] "K" "F" "U"
    (by simp [getF]) (by simp [getF]) (by simp [getF])).2 [] rfl

/-! ### C4: the keyword path -/

/-- C4 counterexample: the search string `"0xABC"` matches the hex pattern
with normalized length 3 (other than 16/32/40/64), is dispatched to the
keyword path, and the scan's `:term` is the hex-normalized `"ABC"`, not
the raw text `"0xABC"` — line 29 of the backend mutates `lookup.search`
before the keyword dispatch. -/
theorem keyword_raw_term_counterexample :
    searchKeysByBestGuessDispatch "0xABC" false
      = (Dispatch.keywordScan (filterExpression false) "ABC", "ABC")
  ∧ "ABC" ≠ "0xABC" :=
  ⟨rfl, by decide⟩

/-- C4 (amended): every lookup dispatched to the keyword path issues
exactly one filtered scan whose filter is an equality match on
`primaryUserId` when `exact` is set and the case-sensitive
substring-OR across `primaryUserId`, `pgpKeyId` and `pgpFingerprintUpper`
otherwise; the `:term` is the current value of the search text — the
marker-stripped hex payload when the hex pattern matched, the raw text
verbatim otherwise. -/
theorem keyword_path_filter_spec (search : String) (exact : Bool)
    (h : keywordDispatched search = true) :
    searchKeysByBestGuessDispatch search exact
      = (Dispatch.keywordScan (filterExpression exact) (scanTerm search),
         scanTerm search)
  ∧ filterExpression true = "primaryUserId = :term"
  ∧ filterExpression false =
      "contains(primaryUserId, :term) OR contains(pgpKeyId, :term) OR contains(pgpFingerprintUpper, :term)" := by
  refine ⟨?_, rfl, rfl⟩
  unfold searchKeysByBestGuessDispatch scanTerm
  unfold keywordDispatched at h
  cases hm : hexMatch search with
  | none => simp [hm]
  | some n =>
    rw [hm] at h
    simp only [Bool.not_eq_true', Bool.or_eq_false_iff, decide_eq_false_iff_not] at h
    obtain ⟨⟨⟨h32, h40⟩, h64⟩, h16⟩ := h
    simp [hm, h32, h40, h64, h16]

/-- Closed witness for the keyword-path theorem at the non-hex search
string `"hello"`. -/
theorem keyword_path_filter_spec_witness :
    searchKeysByBestGuessDispatch "hello" false
      = (Dispatch.keywordScan (filterExpression false) (scanTerm "hello"),
         scanTerm "hello") :=
  (keyword_path_filter_spec "hello" false rfl).1

/-! ### C5: the fingerprint path -/

/-- C5 counterexample: for the 32-character lowercase hex search string
the issued point-lookup key components are the uppercased halves, which
differ from the raw split `(string[:-16], string[-16:])` the claim
states. -/
theorem fingerprint_uppercased_key_counterexample :
    searchKeysByBestGuessDispatch "aaaaaaaaaaaaaaaaaaaaaaaaaaaaaaaa" false
      = (Dispatch.fingerprint "AAAAAAAAAAAAAAAA" "AAAAAAAAAAAAAAAA",
         "aaaaaaaaaaaaaaaaaaaaaaaaaaaaaaaa")
  ∧ ("AAAAAAAAAAAAAAAA" : String) ≠ "aaaaaaaaaaaaaaaa" :=
  ⟨rfl, by decide⟩

/-- C5 (amended): for a search string matching the hex pattern with
normalized length 32, 40 or 64, exactly one point lookup is issued, keyed
by the case-uppercased split — `pgpKeyId` the uppercased trailing
16 characters, `pgpFingerprintUpper` the uppercased leading remainder; the
resulting sequence yields at most one record; a miss terminates `Ok` with
zero yields and a lookup failure terminates `Err`. -/
theorem fingerprint_path_spec (search norm : String) (exact : Bool)
    (hm : hexMatch search = some norm)
    (hlen : norm.length = 32 ∨ norm.length = 40 ∨ norm.length = 64) :
    searchKeysByBestGuessDispatch search exact
      = (Dispatch.fingerprint (strUpper (strTakeRight 16 norm))
          (strUpper (strDropRight 16 norm)), norm)
  ∧ (∀ o, (bestGuessFingerprintRun o).1.length ≤ 1)
  ∧ bestGuessFingerprintRun PointOutcome.miss = ([], Result.okv JSValue.vundef)
  ∧ (∀ e, bestGuessFingerprintRun (PointOutcome.fail e)
      = ([], Result.errv (errCause e))) := by
  refine ⟨?_, ?_, rfl, fun e => rfl⟩
  · unfold searchKeysByBestGuessDispatch
    rw [hm]
    simp [pointLookupKey, hlen]
  · intro o
    cases o with
    | fail e => simp [bestGuessFingerprintRun, findKeyByFingerprint,
        Result.isErr, Result.isOk]
    | miss => simp [bestGuessFingerprintRun, findKeyByFingerprint,
        Result.isErr, Result.isOk, Result.isPresent]
    | found item =>
      cases hx : extractKeyMetadata item with
      | ok mm => simp [bestGuessFingerprintRun, findKeyByFingerprint, hx,
          Result.isErr, Result.isOk, Result.isPresent]
      | error e => simp [bestGuessFingerprintRun, findKeyByFingerprint, hx,
          Result.isErr, Result.isOk]

/-- Closed witness for the fingerprint-path theorem at a concrete
40-character hex string, projected to the miss behavior. -/
theorem fingerprint_path_spec_witness :
    bestGuessFingerprintRun PointOutcome.miss = ([], Result.okv JSValue.vundef) :=
  (fingerprint_path_spec "0123456789ABCDEF0123456789ABCDEF01234567"
    "0123456789ABCDEF0123456789ABCDEF01234567" false rfl
    (Or.inr (Or.inl rfl))).2.2.1

/-! ### C1: pagination through the wrapped query/scan loop -/

theorem yieldPage_ok (l : List RawItem) (h : ∀ i ∈ l, decodes i = true) :
    yieldPage l = (l.map decodeOk, none) := by
  induction l with
  | nil => rfl
  | cons i rest ih =>
    have hi := h i (by simp)
    have hrest : ∀ j ∈ rest, decodes j = true := fun j hj => h j (by simp [hj])
    cases hx : extractKeyMetadata i with
    | ok m => simp [yieldPage, hx, ih hrest, decodeOk]
    | error e => simp [decodes, hx] at hi

theorem runPaged_good_aux (ps : List (Option (List RawItem) × String))
    (tail : List PageResult) (ys : List (List (String × JSValue))) (out : JSResult)
    (htail : ∀ sk, runPaged sk tail = ⟨[sk], ys, out⟩)
    (hdec : ∀ i ∈ (ps.map (fun p => itemsOf p.1)).flatten, decodes i = true) :
    ∀ sk, runPaged sk (ps.map goodPage ++ tail)
      = ⟨sk :: ps.map (fun p => some p.2),
         ((ps.map (fun p => itemsOf p.1)).flatten).map decodeOk ++ ys, out⟩ := by
  induction ps with
  | nil =>
    intro sk
    simpa using htail sk
  | cons p rest ih =>
    intro sk
    have hp : ∀ i ∈ itemsOf p.1, decodes i = true := by
      intro i hi
      refine hdec i ?_
      simp only [List.map_cons, List.flatten_cons, List.mem_append]
      exact Or.inl hi
    have hrest : ∀ i ∈ (rest.map (fun p => itemsOf p.1)).flatten, decodes i = true := by
      intro i hi
      refine hdec i ?_
      simp only [List.map_cons, List.flatten_cons, List.mem_append]
      exact Or.inr hi
    have hyp := yieldPage_ok (itemsOf p.1) hp
    have hr := ih hrest (some p.2)
    simp only [itemsOf] at hyp
    simp [runPaged, goodPage, hyp, hr, itemsOf]

/-- C1: a search resolved through the id or keyword path against a store
answering pages `P1..Pn`, every page but `Pn` carrying a continuation
token, yields every record of `P1..Pn` decoded in arrival order and
terminates `Ok`, each subsequent send reissuing the identical query with
the previous page's token attached (`sends` lists the `ExclusiveStartKey`
of every issued send, the base query being immutable through the loop);
and when the send for page `Pk` (k < n) fails, every record of
`P1..P(k-1)` has been yielded and the sequence terminates `Err` with
nothing yielded from `Pk` on. -/
theorem searchPagination_spec (ps : List (Option (List RawItem) × String))
    (lastItems : Option (List RawItem)) (e : JSValue)
    (hdec : ∀ i ∈ ((ps.map (fun p => itemsOf p.1)).flatten ++ itemsOf lastItems),
      decodes i = true) :
    runPaged none (ps.map goodPage ++ [PageResult.page lastItems none])
      = ⟨none :: ps.map (fun p => some p.2),
         (((ps.map (fun p => itemsOf p.1)).flatten).map decodeOk)
           ++ (itemsOf lastItems).map decodeOk,
         Result.okv JSValue.vundef⟩
  ∧ runPaged none (ps.map goodPage ++ [PageResult.fail e])
      = ⟨none :: ps.map (fun p => some p.2),
         ((ps.map (fun p => itemsOf p.1)).flatten).map decodeOk,
         Result.errv (errCause e)⟩ := by
  have hjoin : ∀ i ∈ (ps.map (fun p => itemsOf p.1)).flatten, decodes i = true := by
    intro i hi
    exact hdec i (by simp [hi])
  constructor
  · have hlast : ∀ i ∈ itemsOf lastItems, decodes i = true := by
      intro i hi
      exact hdec i (by simp [hi])
    have hy := yieldPage_ok (itemsOf lastItems) hlast
    simp only [itemsOf] at hy
    have htail : ∀ sk, runPaged sk [PageResult.page lastItems none]
        = ⟨[sk], (itemsOf lastItems).map decodeOk, Result.okv JSValue.vundef⟩ := by
      intro sk
      simp [runPaged, itemsOf, hy]
    exact runPaged_good_aux ps _ _ _ htail hjoin none
  · have htail : ∀ sk, runPaged sk [PageResult.fail e]
        = ⟨[sk], [], Result.errv (errCause e)⟩ := fun sk => rfl
    simpa using runPaged_good_aux ps _ _ _ htail hjoin none

/-- Closed witness: a two-page run (one token-carrying page, then a final
page) over well-formed raw items terminates `Ok`. -/
theorem searchPagination_spec_witness :
    (runPaged none
      [goodPage (some [[("pgpKeyId", AttributeValue.S "K"),
        ("pgpFingerprintUpper", AttributeValue.S "F"),
        ("primaryUserId", AttributeValue.S "U")]], "t1"),
       PageResult.page (some [[("pgpKeyId", AttributeValue.S "K2"),
        ("pgpFingerprintUpper", AttributeValue.S "F2"),
        ("primaryUserId", AttributeValue.S "U2")]]) none]).outcome
      = Result.okv JSValue.vundef :=
  congrArg PagedRun.outcome
    (searchPagination_spec
      [(some [[("pgpKeyId", AttributeValue.S "K"),
        ("pgpFingerprintUpper", AttributeValue.S "F"),
        ("primaryUserId", AttributeValue.S "U")]], "t1")]
      (some [[("pgpKeyId", AttributeValue.S "K2"),
        ("pgpFingerprintUpper", AttributeValue.S "F2"),
        ("primaryUserId", AttributeValue.S "U2")]])
      JSValue.vnull (by decide)).1

/-! ### C7: formatKeys -/

theorem formatKeysAux_full (streams : List StreamRead)
    (hfull : ∀ s ∈ streams, isFullRead s = true) :
    ∀ acc v, formatKeysAux acc streams (Result.okv v)
      = Result.okv ⟨200, "application/pgp-keys",
          some (String.join (acc ++ (streams.map chunksOf).flatten))⟩ := by
  induction streams with
  | nil => intro acc v; simp [formatKeysAux]
  | cons s rest ih =>
    intro acc v
    cases s with
    | fullRead cs =>
      have hrest : ∀ t ∈ rest, isFullRead t = true := fun t ht => hfull t (by simp [ht])
      have := ih hrest (acc ++ cs) v
      simp [formatKeysAux, chunksOf, this, List.append_assoc]
    | failRead cs e =>
      have := hfull (StreamRead.failRead cs e) (by simp)
      simp [isFullRead] at this

theorem formatKeysAux_fail (pre : List StreamRead)
    (hpre : ∀ s ∈ pre, isFullRead s = true) :
    ∀ acc cs e post outc,
      formatKeysAux acc (pre ++ StreamRead.failRead cs e :: post) outc
        = Result.errv (errCause e) := by
  induction pre with
  | nil => intro acc cs e post outc; rfl
  | cons s rest ih =>
    intro acc cs e post outc
    cases s with
    | fullRead cs2 =>
      have hrest : ∀ t ∈ rest, isFullRead t = true := fun t ht => hpre t (by simp [ht])
      have := ih hrest (acc ++ cs2) cs e post outc
      simpa [formatKeysAux] using this
    | failRead cs2 e2 =>
      have := hpre (StreamRead.failRead cs2 e2) (by simp)
      simp [isFullRead] at this

/-- C7: `formatKeys` reads every yielded stream to completion in order;
when every read completes and the sequence terminates `Ok` it returns `Ok`
with body the concatenation of all accumulated bytes and content type
`application/pgp-keys`; and when a stream's read fails it immediately
returns that `Err` — the result is independent of the streams after the
failing one, which are never read, and carries no partial body. -/
theorem formatKeys_spec (streams pre post : List StreamRead) (cs : List String)
    (v e : JSValue) (outc : JSResult)
    (hfull : ∀ s ∈ streams, isFullRead s = true)
    (hpre : ∀ s ∈ pre, isFullRead s = true) :
    formatKeys streams (Result.okv v)
      = Result.okv ⟨200, "application/pgp-keys",
          some (String.join ((streams.map chunksOf).flatten))⟩
  ∧ formatKeys (pre ++ StreamRead.failRead cs e :: post) outc
      = Result.errv (errCause e) := by
  constructor
  · simpa using formatKeysAux_full streams hfull [] v
  · exact formatKeysAux_fail pre hpre [] cs e post outc

/-- Closed witness: three streams, the second failing mid-read, return
`Err` regardless of the third; projected from the theorem at concrete
inputs. -/
theorem formatKeys_spec_witness :
    formatKeys [StreamRead.fullRead ["k1"],
      StreamRead.failRead ["partial"] (JSValue.vstr "io"),
      StreamRead.fullRead ["k3"]] (Result.okv JSValue.vundef)
      = Result.errv (errCause (JSValue.vstr "io")) :=
  (formatKeys_spec [] [StreamRead.fullRead ["k1"]]
    [StreamRead.fullRead ["k3"]] ["partial"] JSValue.vundef
    (JSValue.vstr "io") (Result.okv JSValue.vundef)
    (by intro s hs; simp at hs)
    (by intro s hs; simp at hs; simp [hs, isFullRead])).2

/-! ### C9: formatIndices in JSON mode -/

theorem getF_buildIndices (ms : List (List (String × JSValue))) :
    ∀ acc fp, getF (buildIndices ms acc) fp
      = match lastMatch fp ms with
        | some m => some (JSValue.vobj none m)
        | none => getF acc fp := by
  induction ms with
  | nil => intro acc fp; simp [buildIndices, lastMatch]
  | cons m rest ih =>
    intro acc fp
    simp only [buildIndices, lastMatch]
    rw [ih]
    cases h : lastMatch fp rest with
    | some r => simp
    | none =>
      simp only
      by_cases hfp : fingerprintKeyOf m = fp
      · rw [hfp, getF_setF_self]
        simp
      · rw [getF_setF_ne _ _ _ _ (fun hh => hfp hh.symm)]
        simp [hfp]

theorem countKey_buildIndices (ms : List (List (String × JSValue))) :
    ∀ acc fp, (∀ k, countKey acc k ≤ 1) →
      countKey (buildIndices ms acc) fp ≤ 1 := by
  induction ms with
  | nil => intro acc fp h; exact h fp
  | cons m rest ih =>
    intro acc fp h
    refine ih _ fp (fun k => ?_)
    by_cases hk : k = fingerprintKeyOf m
    · rw [hk, countKey_setF_self]
      exact Nat.max_le.mpr ⟨h _, Nat.le_refl 1⟩
    · rw [countKey_setF_ne _ _ _ _ hk]
      exact h k

/-- C9: for a successfully-drained sequence in JSON mode, `formatIndices`
returns content type `application/json` and a body serializing the
fingerprint-to-record mapping built by the drain loop; that mapping is
last-write-wins — looking up any fingerprint key gives exactly the latest
yielded record with that fingerprint, and it holds at most one entry per
fingerprint (exactly one when some yielded record carries it). -/
theorem formatIndices_json_spec (options : Option (List String))
    (metas : List (List (String × JSValue))) (v : JSValue) (fp : String)
    (hjson : isMachineMode options = false) :
    formatIndices options metas (Result.okv v)
      = Result.okv ⟨200, "application/json",
          some (jsonStringifyTop (buildIndicesAll metas))⟩
  ∧ getF (buildIndicesAll metas) fp
      = (lastMatch fp metas).map (fun m => JSValue.vobj none m)
  ∧ countKey (buildIndicesAll metas) fp ≤ 1
  ∧ ((lastMatch fp metas).isSome = true →
      countKey (buildIndicesAll metas) fp = 1) := by
  have hget : getF (buildIndicesAll metas) fp
      = (lastMatch fp metas).map (fun m => JSValue.vobj none m) := by
    rw [buildIndicesAll, getF_buildIndices]
    cases lastMatch fp metas <;> simp [getF]
  have hle : countKey (buildIndicesAll metas) fp ≤ 1 :=
    countKey_buildIndices metas [] fp (fun k => by simp [countKey])
  refine ⟨?_, hget, hle, fun hsome => ?_⟩
  · simp [formatIndices, hjson, formatJsonIndices]
  · have h1 : (getF (buildIndicesAll metas) fp).isSome = true := by
      rw [hget]
      cases hm : lastMatch fp metas with
      | some m => simp
      | none => simp [hm] at hsome
    have := getF_isSome_le_countKey _ _ h1
    omega

/-- Closed witness: two records sharing the fingerprint `"F"` in JSON mode
leave exactly one entry, equal to the later record; projected from the
theorem at those inputs (first conjunct). -/
theorem formatIndices_json_spec_witness :
    formatIndices (some ["json"])
      [[("fingerprint", JSValue.vstr "F"), ("primaryUserId", JSValue.vstr "u1")],
       [("fingerprint", JSValue.vstr "F"), ("primaryUserId", JSValue.vstr "u2")]]
      (Result.okv JSValue.vundef)
      = Result.okv ⟨200, "application/json",
          some (jsonStringifyTop (buildIndicesAll
            [[("fingerprint", JSValue.vstr "F"), ("primaryUserId", JSValue.vstr "u1")],
             [("fingerprint", JSValue.vstr "F"), ("primaryUserId", JSValue.vstr "u2")]]))⟩ :=
  (formatIndices_json_spec (some ["json"])
    [[("fingerprint", JSValue.vstr "F"), ("primaryUserId", JSValue.vstr "u1")],
     [("fingerprint", JSValue.vstr "F"), ("primaryUserId", JSValue.vstr "u2")]]
    JSValue.vundef "F" (by decide)).1
